import Mathlib

/-!
# Personal Gains Tracker — verification of the analytics aggregation pipeline

Shallow embedding of the analytics core of the workout-logging application:
the Interval Generator (`generateDateIntervals` over the `date-fns` interval
enumerators), the window presets (`getDateRange`), the Supabase reads issued
by the two Analytics screen variants, and the Aggregation Engine of both
variants (`processSingle` / `processGroupV1` for the bucketed first variant,
`processSingleV2` / `processGroupV2` for the second variant).

Modelling conventions:
* A calendar date (a JS `Date` at day precision / an ISO `yyyy-MM-dd` string)
  is an absolute day index `d : ℕ`; a calendar month (a `yyyy-MM` string) is
  an absolute month index `m : ℕ` (year * 12 + month).  The ISO string
  formats are injective and order-preserving in these indices, so string
  equality and `gte`/`lte` comparisons of the source become `=`, `≤` on `ℕ`.
  Gregorian month lengths, including the leap rule, are modelled exactly.
* Display labels (`format(date, "MMM dd")`, `format(date, "MMM yyyy")`) are
  functions of the day or month index; the model keeps the index itself in
  the `date` field of records, as the source keeps the formatted label.
* `DECIMAL(·,2)` store values are exact multiples of `0.01`; the model
  carries them as integers in hundredths (`ℤ`), an exact fixed-point
  representation closed under the additions and comparisons the code
  performs.  The binary64 rounding of the client-side `parseFloat` fold is
  outside this model (see the results for the numerical claim).
* Each Supabase read is modelled by its documented semantics: a filter over
  the table rows followed by a stable ascending sort on the ordered column.
-/

namespace GainsTracker

/-- Gregorian leap-year rule, for the month lengths used by the JS `Date`
calendar that `date-fns` enumerates over. -/
def isLeap (y : ℕ) : Bool :=
  (y % 4 == 0 && y % 100 != 0) || y % 400 == 0

/-- Length of absolute month `m` (month index `m % 12`, `0` = January, of
year `m / 12`). -/
def monthLen (m : ℕ) : ℕ :=
  let r := m % 12
  if r = 1 then (if isLeap (m / 12) then 29 else 28)
  else if r = 3 ∨ r = 5 ∨ r = 8 ∨ r = 10 then 30
  else 31

/-- Absolute day index of the first day of absolute month `m`. -/
def monthStart : ℕ → ℕ
  | 0 => 0
  | m + 1 => monthStart m + monthLen m

/-- Absolute month index containing absolute day `d`; this is the `yyyy-MM`
truncation used by `format(new Date(...), "yyyy-MM")`. -/
def monthOf (d : ℕ) : ℕ :=
  Nat.findGreatest (fun m => monthStart m ≤ d) d

/-- Zero-based day-of-month of absolute day `d`. -/
def dayInMonth (d : ℕ) : ℕ :=
  d - monthStart (monthOf d)

theorem monthLen_pos (m : ℕ) : 0 < monthLen m := by
  unfold monthLen
  dsimp only
  split
  · split <;> omega
  · split <;> omega

theorem self_le_monthStart (m : ℕ) : m ≤ monthStart m := by
  induction m with
  | zero => exact Nat.le_refl 0
  | succ n ih =>
      have := monthLen_pos n
      simp only [monthStart]
      omega

theorem monthStart_mono {a b : ℕ} (h : a ≤ b) : monthStart a ≤ monthStart b := by
  induction b with
  | zero => simp [Nat.le_zero.mp h]
  | succ n ih =>
      rcases Nat.lt_or_ge a (n + 1) with hlt | hge
      · have h1 := ih (Nat.lt_succ_iff.mp hlt)
        have := monthLen_pos n
        simp only [monthStart]
        omega
      · have : a = n + 1 := Nat.le_antisymm h hge
        subst this
        exact Nat.le_refl _

theorem monthStart_monthOf_le (d : ℕ) : monthStart (monthOf d) ≤ d := by
  have h : ∀ k, monthStart (Nat.findGreatest (fun m => monthStart m ≤ d) k) ≤ d := by
    intro k
    induction k with
    | zero => exact Nat.zero_le d
    | succ n ih =>
        rw [Nat.findGreatest_succ]
        split
        · assumption
        · exact ih
  exact h d

theorem monthOf_le_self (d : ℕ) : monthOf d ≤ d :=
  Nat.le_trans (self_le_monthStart _) (monthStart_monthOf_le d)

theorem monthOf_mono {a b : ℕ} (h : a ≤ b) : monthOf a ≤ monthOf b :=
  Nat.le_findGreatest (Nat.le_trans (monthOf_le_self a) h)
    (Nat.le_trans (monthStart_monthOf_le a) h)

/-! ## Window presets (`getDateRange`, Navigation.tsx lines 121-131) -/

/-- The three lookback presets offered by the Analytics screen. -/
inductive ViewMode
  | week
  | month
  | year
deriving DecidableEq, Repr

/-- `date-fns` `subDays(now, k)` at day precision. -/
def subDaysAbs (d k : ℕ) : ℕ := d - k

/-- `date-fns` `subMonths(now, k)` at day precision: go back `k` calendar
months, clamping the day-of-month into the target month. -/
def subMonthsAbs (d k : ℕ) : ℕ :=
  let m' := monthOf d - k
  monthStart m' + min (dayInMonth d) (monthLen m' - 1)

theorem subMonthsAbs_le (d k : ℕ) : subMonthsAbs d k ≤ d := by
  have h1 : monthStart (monthOf d - k) ≤ monthStart (monthOf d) :=
    monthStart_mono (Nat.sub_le _ _)
  have h2 : monthStart (monthOf d) ≤ d := monthStart_monthOf_le d
  have h3 : min (dayInMonth d) (monthLen (monthOf d - k) - 1) ≤ dayInMonth d :=
    Nat.min_le_left _ _
  have h4 : dayInMonth d = d - monthStart (monthOf d) := rfl
  simp only [subMonthsAbs]
  omega

/-- `getDateRange` (first Analytics variant): the `[start, end]` window of the
selected preset, anchored at the current moment. -/
def getDateRange (mode : ViewMode) (now : ℕ) : ℕ × ℕ :=
  match mode with
  | .week => (subDaysAbs now 7, now)
  | .month => (subMonthsAbs now 1, now)
  | .year => (subMonthsAbs now 12, now)

theorem getDateRange_start_le_end (mode : ViewMode) (now : ℕ) :
    (getDateRange mode now).1 ≤ (getDateRange mode now).2 := by
  cases mode with
  | week => exact Nat.sub_le _ _
  | month => exact subMonthsAbs_le now 1
  | year => exact subMonthsAbs_le now 12

/-! ## Interval Generator (`generateDateIntervals`, Navigation.tsx 133-151) -/

/-- Failure taxonomy of the interval enumeration. -/
inductive IntervalError
  | InvalidRange
deriving DecidableEq, Repr

/-- One bucket handed to the chart: `date` is the display label (a function
of the day or month index), `dateValue` the key used for matching. -/
structure Interval where
  date : ℕ
  dateValue : ℕ
deriving DecidableEq, Repr

/-- Modelled from the spec: `date-fns` `eachDayOfInterval` is not part of
this repository; per the spec contract it enumerates every calendar day of
the interval inclusively, in ascending order, and fails with the
`InvalidRange` condition on a reversed interval. -/
def eachDayOfInterval (s e : ℕ) : Except IntervalError (List ℕ) :=
  if s ≤ e then .ok (List.range' s (e + 1 - s)) else .error .InvalidRange

/-- Modelled from the spec: `date-fns` `eachMonthOfInterval` is not part of
this repository; per the spec contract it enumerates every calendar month
touched by the interval inclusively, in ascending order, and fails with the
`InvalidRange` condition on a reversed interval. -/
def eachMonthOfInterval (s e : ℕ) : Except IntervalError (List ℕ) :=
  if s ≤ e then .ok (List.range' (monthOf s) (monthOf e + 1 - monthOf s))
  else .error .InvalidRange

/-- `generateDateIntervals` (first Analytics variant): day buckets for the
week and month presets, month buckets for the year preset.  The `date`
label and the `dateValue` matching key are both determined by the produced
day or month. -/
def generateDateIntervals (mode : ViewMode) (s e : ℕ) :
    Except IntervalError (List Interval) :=
  match mode with
  | .week => (eachDayOfInterval s e).map (List.map fun d => ⟨d, d⟩)
  | .month => (eachDayOfInterval s e).map (List.map fun d => ⟨d, d⟩)
  | .year => (eachMonthOfInterval s e).map (List.map fun m => ⟨m, m⟩)

/-- The bucket key of a date under the granularity of a preset: the full
date for day granularity, its `yyyy-MM` truncation for month granularity. -/
def keyOf (mode : ViewMode) (d : ℕ) : ℕ :=
  match mode with
  | .year => monthOf d
  | _ => d

theorem keyOf_mono (mode : ViewMode) {a b : ℕ} (h : a ≤ b) :
    keyOf mode a ≤ keyOf mode b := by
  cases mode <;> simp only [keyOf] <;> first | exact h | exact monthOf_mono h

/-- The generated bucket keys, in order. -/
def bucketKeys (mode : ViewMode) (s e : ℕ) : List ℕ :=
  List.range' (keyOf mode s) (keyOf mode e + 1 - keyOf mode s)

theorem generateDateIntervals_ok {mode : ViewMode} {s e : ℕ} (h : s ≤ e) :
    generateDateIntervals mode s e =
      .ok ((bucketKeys mode s e).map fun k => ⟨k, k⟩) := by
  cases mode <;>
    simp [generateDateIntervals, eachDayOfInterval, eachMonthOfInterval, h,
      bucketKeys, keyOf, Except.map]

theorem generateDateIntervals_err {mode : ViewMode} {s e : ℕ} (h : e < s) :
    generateDateIntervals mode s e = .error .InvalidRange := by
  have h' : ¬ s ≤ e := Nat.not_le.mpr h
  cases mode <;>
    simp [generateDateIntervals, eachDayOfInterval, eachMonthOfInterval, h',
      Except.map]

theorem mem_bucketKeys {mode : ViewMode} {s e k : ℕ} (h : s ≤ e) :
    k ∈ bucketKeys mode s e ↔ keyOf mode s ≤ k ∧ k ≤ keyOf mode e := by
  have hk : keyOf mode s ≤ keyOf mode e := keyOf_mono mode h
  simp only [bucketKeys, List.mem_range'_1]
  omega

theorem bucketKeys_nodup (mode : ViewMode) (s e : ℕ) :
    (bucketKeys mode s e).Nodup :=
  List.nodup_range' _ _

theorem bucketKeys_sorted (mode : ViewMode) (s e : ℕ) :
    List.Pairwise (· < ·) (bucketKeys mode s e) :=
  List.pairwise_lt_range' _ _

theorem bucketKeys_ne_nil {mode : ViewMode} {s e : ℕ} (h : s ≤ e) :
    bucketKeys mode s e ≠ [] := by
  have hk : keyOf mode s ≤ keyOf mode e := keyOf_mono mode h
  simp only [bucketKeys, ne_eq, List.range'_eq_nil]
  omega

theorem bucketKeys_head {mode : ViewMode} {s e : ℕ} (h : s ≤ e) :
    (bucketKeys mode s e).head? = some (keyOf mode s) := by
  have hk : keyOf mode s ≤ keyOf mode e := keyOf_mono mode h
  rw [bucketKeys, List.head?_range']
  simp
  omega

theorem bucketKeys_last {mode : ViewMode} {s e : ℕ} (h : s ≤ e) :
    (bucketKeys mode s e).getLast? = some (keyOf mode e) := by
  have hk : keyOf mode s ≤ keyOf mode e := keyOf_mono mode h
  rw [bucketKeys, List.getLast?_range', if_neg (by omega)]
  congr 1
  omega

/-! ## Data model (schema of part_000 lines 743-769) -/

/-- A row of `exercises` as consumed by the analytics reads. -/
structure ExerciseRow where
  id : String
  name : String
  group_id : String
deriving DecidableEq, Repr

/-- A row of `workout_entries`.  The `effort` column is generated, never a
stored independent field; see `effortCol`. -/
structure WorkoutRow where
  exercise_id : String
  weight_kg : ℤ
  reps : ℕ
  workout_date : ℕ
deriving DecidableEq, Repr

/-- The generated column `effort DECIMAL(8,2) GENERATED ALWAYS AS
(weight_kg * reps) STORED`: derived from the row, present on every read. -/
def effortCol (r : WorkoutRow) : ℤ := r.weight_kg * (r.reps : ℤ)

/-- The insert payload built by the Log Workout form: it carries no effort
field, so effort is never independently set by a client write. -/
structure WorkoutInsert where
  exercise_id : String
  weight_kg : ℤ
  reps : ℕ
  workout_date : ℕ
deriving DecidableEq, Repr

/-- The row the store creates for an insert payload: the generated column is
computed by the store. -/
def insertWorkoutEntry (p : WorkoutInsert) : WorkoutRow :=
  ⟨p.exercise_id, p.weight_kg, p.reps, p.workout_date⟩

/-! ## Supabase reads of the two Analytics variants -/

/-- Date ordering on workout rows, for the `.order("workout_date")` clause. -/
def rowDateLE (a b : WorkoutRow) : Prop := a.workout_date ≤ b.workout_date

instance : DecidableRel rowDateLE := fun a b =>
  inferInstanceAs (Decidable (a.workout_date ≤ b.workout_date))

instance : IsTotal WorkoutRow rowDateLE := ⟨fun _ _ => Nat.le_total _ _⟩

instance : IsTrans WorkoutRow rowDateLE := ⟨fun _ _ _ h1 h2 => Nat.le_trans h1 h2⟩

/-- `.order("workout_date")`: stable ascending sort on the date column. -/
def orderByDate (l : List WorkoutRow) : List WorkoutRow :=
  List.insertionSort rowDateLE l

/-- First variant `fetchSingleExerciseData` read (Navigation.tsx 159-165):
`workout_entries` restricted to the exercise, range-filtered to the window,
ordered ascending by date. -/
def singleQueryV1 (db : List WorkoutRow) (exId : String) (s e : ℕ) :
    List WorkoutRow :=
  orderByDate (db.filter fun r =>
    r.exercise_id == exId && decide (s ≤ r.workout_date)
      && decide (r.workout_date ≤ e))

/-- First variant `fetchGroupData` first read (lines 204-207): the exercises
of the selected group. -/
def groupExercisesQuery (exs : List ExerciseRow) (g : String) : List ExerciseRow :=
  exs.filter fun x => x.group_id == g

/-- Row shape of the first-variant group read: date, stored effort, and the
joined (nullable) exercise name. -/
structure JoinedRow where
  workout_date : ℕ
  effort : ℤ
  ename : Option String
deriving DecidableEq, Repr

/-- First variant `fetchGroupData` second read, row level (lines 220-226):
`workout_entries` with `exercise_id` among the exercises of the group,
range-filtered to the window, ordered ascending by date. -/
def groupRowsV1 (db : List WorkoutRow) (exs : List ExerciseRow) (g : String)
    (s e : ℕ) : List WorkoutRow :=
  orderByDate (db.filter fun r =>
    ((groupExercisesQuery exs g).map (·.id)).contains r.exercise_id
      && decide (s ≤ r.workout_date) && decide (r.workout_date ≤ e))

/-- The column selection of the first-variant group read: date, stored
effort, and the joined exercise name. -/
def groupQueryV1 (db : List WorkoutRow) (exs : List ExerciseRow) (g : String)
    (s e : ℕ) : List JoinedRow :=
  (groupRowsV1 db exs g s e).map fun r =>
    ⟨r.workout_date, effortCol r,
      (exs.find? fun x => x.id == r.exercise_id).map (·.name)⟩

/-- Second variant `fetchSingleExerciseData` read (lines 522-526): restricted
to the exercise and ordered by date, but with no date-range filter at all. -/
def singleQueryV2 (db : List WorkoutRow) (exId : String) : List WorkoutRow :=
  orderByDate (db.filter fun r => r.exercise_id == exId)

/-- Row shape of the second-variant group read: raw weight and reps plus the
inner-joined exercise name. -/
structure GroupJoinRow where
  weight_kg : ℤ
  reps : ℕ
  workout_date : ℕ
  ename : String
deriving DecidableEq, Repr

/-- Second variant `fetchGroupData` read, row level (lines 548-557): inner
join with `exercises`, restricted to the group, ordered by date, with no
date-range filter. -/
def groupRowsV2 (db : List WorkoutRow) (exs : List ExerciseRow) (g : String) :
    List WorkoutRow :=
  orderByDate (db.filter fun r =>
    (exs.find? fun x => x.id == r.exercise_id).any fun x => x.group_id == g)

/-- The column selection of the second-variant group read: raw weight and
reps plus the inner-joined exercise name. -/
def groupQueryV2 (db : List WorkoutRow) (exs : List ExerciseRow) (g : String) :
    List GroupJoinRow :=
  (groupRowsV2 db exs g).map fun r =>
    ⟨r.weight_kg, r.reps, r.workout_date,
      (((exs.find? fun x => x.id == r.exercise_id).map (·.name)).getD "")⟩

/-! ## Aggregation Engine, first (bucketed) Analytics variant -/

/-- One output record of single-exercise mode. -/
structure SinglePoint where
  date : ℕ
  effort : ℤ
deriving DecidableEq, Repr

/-- The bucket-matching test of the fold (lines 176-181 and 239-244): month
granularity (the year preset) truncates the entry date to its `yyyy-MM`
month before comparing with the bucket key; day granularity compares the
full date. -/
def matchesInterval (mode : ViewMode) (iv : Interval) (d : ℕ) : Bool :=
  match mode with
  | .year => monthOf d == iv.dateValue
  | _ => d == iv.dateValue

theorem matchesInterval_eq (mode : ViewMode) (iv : Interval) (d : ℕ) :
    matchesInterval mode iv d = (keyOf mode d == iv.dateValue) := by
  cases mode <;> rfl

/-- Single-exercise aggregation (lines 174-189): one output record per
interval, in interval order, summing the stored effort column over the
entries whose key matches the bucket. -/
def processSingle (mode : ViewMode) (intervals : List Interval)
    (data : List WorkoutRow) : List SinglePoint :=
  intervals.map fun iv =>
    ⟨iv.date,
      ((data.filter fun r => matchesInterval mode iv r.workout_date).map
        effortCol).sum⟩

/-- JS `Set` iteration order: deduplication keeping first occurrences. -/
def dedupFirst (l : List String) : List String :=
  l.foldl (fun acc n => if n ∈ acc then acc else acc ++ [n]) []

/-- Line 236: the distinct exercise names present anywhere in the queried
rows; missing joins and empty names are dropped by `filter(Boolean)`. -/
def exerciseNamesOf (data : List JoinedRow) : List String :=
  dedupFirst ((data.filterMap (·.ename)).filter fun n => n != "")

/-- One output record of group mode: the label plus one value per series. -/
structure GroupRecord where
  date : ℕ
  series : List (String × ℤ)
deriving DecidableEq, Repr

/-- Group-mode aggregation, first variant (lines 238-255): one record per
interval carrying the label and one key per distinct exercise name, with
value zero when no entry matches the bucket and the name. -/
def processGroupV1 (mode : ViewMode) (intervals : List Interval)
    (data : List JoinedRow) : List GroupRecord :=
  let names := exerciseNamesOf data
  intervals.map fun iv =>
    let dayData := data.filter fun r => matchesInterval mode iv r.workout_date
    ⟨iv.date, names.map fun n =>
      (n, ((dayData.filter fun r => r.ename == some n).map (·.effort)).sum)⟩

/-! ## Aggregation, second Analytics variant (no buckets) -/

/-- Second variant single-exercise processing (lines 537-540): a direct map
of the raw rows, one output record per row, recomputing effort client-side;
the Interval Generator is never consulted. -/
def processSingleV2 (data : List WorkoutRow) : List SinglePoint :=
  data.map fun r => ⟨r.workout_date, r.weight_kg * (r.reps : ℤ)⟩

/-- `groupedData[date][exerciseName] += effort` on an association list. -/
def bumpSeries (series : List (String × ℤ)) (n : String) (v : ℤ) :
    List (String × ℤ) :=
  match series with
  | [] => [(n, v)]
  | (m, w) :: rest =>
      if m == n then (m, w + v) :: rest else (m, w) :: bumpSeries rest n v

/-- `groupedData[date]` update: add the effort under the date and name,
creating entries in first-insertion order as JS object keys do. -/
def bumpGrouped (acc : List (ℕ × List (String × ℤ))) (d : ℕ) (n : String)
    (v : ℤ) : List (ℕ × List (String × ℤ)) :=
  match acc with
  | [] => [(d, [(n, v)])]
  | (d', sr) :: rest =>
      if d' == d then (d', bumpSeries sr n v) :: rest
      else (d', sr) :: bumpGrouped rest d n v

/-- Group-mode processing, second variant (lines 569-593): fold the rows
into a date-keyed map of per-exercise sums and emit one record per date that
has data; a record carries keys only for the exercises seen on that date. -/
def processGroupV2 (data : List GroupJoinRow) : List GroupRecord :=
  (data.foldl
      (fun acc r => bumpGrouped acc r.workout_date r.ename (r.weight_kg * (r.reps : ℤ)))
      []).map fun p => ⟨p.1, p.2⟩

/-- The distinct exercise names present in the second-variant group rows. -/
def exerciseNamesOfV2 (data : List GroupJoinRow) : List String :=
  dedupFirst (data.map (·.ename))

/-! ## Scope selection and dispatch (first variant) -/

/-- The two scope selections of the Analytics screen; the empty string is
the unselected state, as in the source. -/
structure SelState where
  selectedExercise : String
  selectedGroup : String
deriving DecidableEq, Repr

/-- Initial state: nothing selected. -/
def initialSelState : SelState := ⟨"", ""⟩

/-- A user interaction with one of the two scope Selects. -/
inductive SelAction
  | pickExercise (v : String)
  | pickGroup (v : String)
deriving DecidableEq, Repr

/-- The two `onValueChange` handlers (lines 302-305 and 330-333): picking
one scope clears the other. -/
def applySelAction (_s : SelState) (a : SelAction) : SelState :=
  match a with
  | .pickExercise v => ⟨v, ""⟩
  | .pickGroup v => ⟨"", v⟩

/-- The selection state after a sequence of interactions. -/
def runSelActions (acts : List SelAction) : SelState :=
  acts.foldl applySelAction initialSelState

/-- What one press of Analyze runs. -/
inductive AnalyzeDispatch
  | single (exerciseId : String)
  | group (groupId : String)
  | skip
deriving DecidableEq, Repr

/-- `handleAnalyze` (lines 263-269): single-exercise mode when an exercise
is selected, group mode otherwise when a group is selected, nothing when
the scope is empty. -/
def handleAnalyze (s : SelState) : AnalyzeDispatch :=
  if s.selectedExercise ≠ "" then .single s.selectedExercise
  else if s.selectedGroup ≠ "" then .group s.selectedGroup
  else .skip

/-! ## Failure flow of one analysis run (first variant) -/

/-- The chart state of the Analytics screen. -/
inductive ChartData
  | single (points : List SinglePoint)
  | group (records : List GroupRecord)
deriving DecidableEq, Repr

/-- The generic toast raised when a workout-entries read fails. -/
def fetchErrorToast : String := "Failed to load workout data"

/-- The toast raised when the group-exercises read fails. -/
def groupExercisesErrorToast : String := "Failed to load group exercises"

/-- One run of `fetchSingleExerciseData` (lines 153-195) as a function of
the single upstream response: each analysis issues exactly one read and
consumes exactly one response, so no retry exists in the model.  On a read
error the toast is raised and the previous chart state is returned
untouched, with the aggregation never invoked.  The interval-error branch
is an uncaught throw in the source: no state change and no toast (it is
unreachable for the preset windows). -/
def fetchSingleRunV1 (mode : ViewMode) (s e : ℕ)
    (resp : Except Unit (List WorkoutRow)) (prev : ChartData) :
    ChartData × Option String :=
  match resp with
  | .error _ => (prev, some fetchErrorToast)
  | .ok data =>
      match generateDateIntervals mode s e with
      | .ok ivs => (.single (processSingle mode ivs data), none)
      | .error _ => (prev, none)

/-- One run of `fetchGroupData` (lines 197-261) as a function of its two
upstream responses (group exercises, then entries): an error in either read
raises its toast and returns the previous chart state untouched; the second
read is not issued when the first fails, and the aggregation runs only when
both succeed. -/
def fetchGroupRunV1 (mode : ViewMode) (s e : ℕ)
    (respExercises : Except Unit (List ExerciseRow))
    (respEntries : Except Unit (List JoinedRow)) (prev : ChartData) :
    ChartData × Option String :=
  match respExercises with
  | .error _ => (prev, some groupExercisesErrorToast)
  | .ok _ =>
      match respEntries with
      | .error _ => (prev, some fetchErrorToast)
      | .ok data =>
          match generateDateIntervals mode s e with
          | .ok ivs => (.group (processGroupV1 mode ivs data), none)
          | .error _ => (prev, none)

/-! ## Summation helpers -/

theorem sum_map_add {α : Type} (l : List α) (g h : α → ℤ) :
    (l.map fun a => g a + h a).sum = (l.map g).sum + (l.map h).sum := by
  induction l with
  | nil => simp
  | cons a t ih => simp only [List.map_cons, List.sum_cons, ih]; ring

theorem sum_ite_key_not_mem (keys : List ℕ) (a : ℕ) (c : ℤ) (ha : a ∉ keys) :
    (keys.map fun k => if a = k then c else 0).sum = 0 := by
  induction keys with
  | nil => rfl
  | cons k ks ih =>
      have hne : a ≠ k := fun h => ha (h ▸ List.mem_cons_self k ks)
      have hnot : a ∉ ks := fun h => ha (List.mem_cons_of_mem _ h)
      simp [if_neg hne, ih hnot]

theorem sum_ite_key_eq (keys : List ℕ) (a : ℕ) (c : ℤ) (hnd : keys.Nodup)
    (ha : a ∈ keys) :
    (keys.map fun k => if a = k then c else 0).sum = c := by
  induction keys with
  | nil => cases ha
  | cons k ks ih =>
      rcases List.mem_cons.mp ha with rfl | hmem
      · have hnot : a ∉ ks := (List.nodup_cons.mp hnd).1
        simp [sum_ite_key_not_mem ks a c hnot]
      · have hne : a ≠ k := by
          rintro rfl
          exact (List.nodup_cons.mp hnd).1 hmem
        simp [if_neg hne, ih (List.nodup_cons.mp hnd).2 hmem]

/-- Partition of a sum over bucket keys: when the keys are distinct and
cover every element, summing the per-bucket sums recovers the total. -/
theorem sum_over_buckets {α : Type} (keys : List ℕ) (key : α → ℕ) (f : α → ℤ)
    (xs : List α) (hnd : keys.Nodup) (hcov : ∀ x ∈ xs, key x ∈ keys) :
    (keys.map fun k => ((xs.filter fun x => key x == k).map f).sum).sum
      = (xs.map f).sum := by
  induction xs with
  | nil => simp
  | cons x xs ih =>
      have hcov' : ∀ y ∈ xs, key y ∈ keys := fun y hy =>
        hcov y (List.mem_cons_of_mem _ hy)
      have hx : key x ∈ keys := hcov x (List.mem_cons_self _ _)
      have hsplit : ∀ k : ℕ,
          (((x :: xs).filter fun y => key y == k).map f).sum
            = (if key x = k then f x else 0)
              + ((xs.filter fun y => key y == k).map f).sum := by
        intro k
        by_cases h : key x = k
        · simp [List.filter_cons, h]
        · simp [List.filter_cons, h]
      calc (keys.map fun k => (((x :: xs).filter fun y => key y == k).map f).sum).sum
          = (keys.map fun k => (if key x = k then f x else 0)
              + ((xs.filter fun y => key y == k).map f).sum).sum := by
            exact congrArg List.sum (List.map_congr_left fun k _ => hsplit k)
        _ = (keys.map fun k => if key x = k then f x else 0).sum
              + (keys.map fun k => ((xs.filter fun y => key y == k).map f).sum).sum :=
            sum_map_add keys _ _
        _ = f x + (xs.map f).sum := by
            rw [sum_ite_key_eq keys (key x) (f x) hnd hx, ih hcov']
        _ = ((x :: xs).map f).sum := by simp

theorem mem_dedupFirst_aux (l acc : List String) (x : String) :
    (x ∈ l.foldl (fun acc n => if n ∈ acc then acc else acc ++ [n]) acc)
      ↔ x ∈ acc ∨ x ∈ l := by
  induction l generalizing acc with
  | nil => simp
  | cons a t ih =>
      simp only [List.foldl_cons]
      by_cases h : a ∈ acc
      · rw [if_pos h, ih]
        constructor
        · rintro (hx | hx)
          · exact Or.inl hx
          · exact Or.inr (List.mem_cons_of_mem _ hx)
        · rintro (hx | hx)
          · exact Or.inl hx
          · rcases List.mem_cons.mp hx with rfl | hx
            · exact Or.inl h
            · exact Or.inr hx
      · rw [if_neg h, ih]
        simp only [List.mem_append, List.mem_singleton, List.mem_cons]
        tauto

theorem nodup_dedupFirst_aux (l acc : List String) (h : acc.Nodup) :
    (l.foldl (fun acc n => if n ∈ acc then acc else acc ++ [n]) acc).Nodup := by
  induction l generalizing acc with
  | nil => exact h
  | cons a t ih =>
      simp only [List.foldl_cons]
      by_cases ha : a ∈ acc
      · rw [if_pos ha]
        exact ih acc h
      · rw [if_neg ha]
        refine ih _ ?_
        simp [List.nodup_append, h, ha]

theorem mem_dedupFirst (l : List String) (x : String) :
    x ∈ dedupFirst l ↔ x ∈ l := by
  rw [dedupFirst, mem_dedupFirst_aux]
  simp

theorem nodup_dedupFirst (l : List String) : (dedupFirst l).Nodup :=
  nodup_dedupFirst_aux l [] List.nodup_nil

/-! ## Concrete sample data used by the witnesses and counterexamples -/

/-- The buckets of the week window anchored at day 40. -/
def weekIvs : List Interval := (List.range' 33 8).map fun k => ⟨k, k⟩

/-- Two entries of the same exercise on the same day inside that window. -/
def rowsTwoSameDay : List WorkoutRow :=
  [⟨"e1", 8000, 10, 35⟩, ⟨"e1", 6000, 5, 35⟩]

/-- A table with rows of two exercises and one out-of-window row. -/
def mixedDb : List WorkoutRow :=
  [⟨"e1", 8000, 10, 35⟩, ⟨"e1", 6000, 5, 38⟩, ⟨"e2", 100, 1, 35⟩,
    ⟨"e1", 100, 1, 50⟩]

/-- An entry dated outside the week window anchored at day 40. -/
def strayRow : WorkoutRow := ⟨"e1", 100, 1, 50⟩

/-- Second-variant group rows for two exercises on two different days. -/
def groupRowsSample : List GroupJoinRow :=
  [⟨10000, 5, 34, "Squat"⟩, ⟨6000, 12, 35, "LegPress"⟩]

/-- A table whose only row is far before the week window anchored at 40. -/
def outOfWindowDb : List WorkoutRow := [⟨"e1", 5000, 10, 5⟩]

/-! ## The claims -/

/-- C3: for every pair of dates with start ≤ end and either granularity, the
Interval Generator returns a non-empty, strictly chronologically ascending
sequence of buckets inclusive of both endpoints — one per calendar day (day
granularity) or one per calendar month (month granularity) — whose first
key corresponds to start and whose last key corresponds to end. -/
theorem c3_interval_generator_contract (mode : ViewMode) (s e : ℕ) (h : s ≤ e) :
    ∃ ivs, generateDateIntervals mode s e = .ok ivs
      ∧ ivs ≠ []
      ∧ List.Pairwise (· < ·) (ivs.map (·.dateValue))
      ∧ (ivs.map (·.dateValue)).head? = some (keyOf mode s)
      ∧ (ivs.map (·.dateValue)).getLast? = some (keyOf mode e)
      ∧ (∀ k, k ∈ ivs.map (·.dateValue) ↔ keyOf mode s ≤ k ∧ k ≤ keyOf mode e) := by
  have hmap : ((bucketKeys mode s e).map fun k => (⟨k, k⟩ : Interval)).map
      (·.dateValue) = bucketKeys mode s e := by
    rw [List.map_map]
    exact List.map_id _
  refine ⟨(bucketKeys mode s e).map fun k => ⟨k, k⟩, generateDateIntervals_ok h,
    ?_, ?_, ?_, ?_, ?_⟩
  · simp only [ne_eq, List.map_eq_nil_iff]
    exact bucketKeys_ne_nil h
  · rw [hmap]; exact bucketKeys_sorted mode s e
  · rw [hmap]; exact bucketKeys_head h
  · rw [hmap]; exact bucketKeys_last h
  · intro k; rw [hmap]; exact mem_bucketKeys h

/-- Witness for C3 at the week window anchored at day 40. -/
theorem c3_interval_generator_contract_witness :
    (33 : ℕ) ≤ 40
      ∧ (∃ ivs, generateDateIntervals .week 33 40 = .ok ivs
          ∧ ivs ≠ []
          ∧ List.Pairwise (· < ·) (ivs.map (·.dateValue))
          ∧ (ivs.map (·.dateValue)).head? = some (keyOf .week 33)
          ∧ (ivs.map (·.dateValue)).getLast? = some (keyOf .week 40)
          ∧ (∀ k, k ∈ ivs.map (·.dateValue) ↔ keyOf .week 33 ≤ k ∧ k ≤ keyOf .week 40)) :=
  ⟨by decide, c3_interval_generator_contract .week 33 40 (by decide)⟩

/-- C9: the Interval Generator fails with the InvalidRange condition whenever
start > end, and this failure is unreachable in the program: every window
produced by the three presets anchored at the current moment satisfies
start ≤ end, and the generator succeeds on it. -/
theorem c9_invalid_range_defensive_unreachable (mode : ViewMode) (s e now : ℕ)
    (hlt : e < s) :
    generateDateIntervals mode s e = .error .InvalidRange
      ∧ (getDateRange mode now).1 ≤ (getDateRange mode now).2
      ∧ ∃ ivs, generateDateIntervals mode (getDateRange mode now).1
          (getDateRange mode now).2 = .ok ivs :=
  ⟨generateDateIntervals_err hlt, getDateRange_start_le_end mode now,
    ⟨_, generateDateIntervals_ok (getDateRange_start_le_end mode now)⟩⟩

/-- Witness for C9 at a concrete reversed range and a concrete anchor. -/
theorem c9_invalid_range_defensive_unreachable_witness :
    (3 : ℕ) < 5
      ∧ (generateDateIntervals .week 5 3 = .error .InvalidRange
          ∧ (getDateRange .week 40).1 ≤ (getDateRange .week 40).2
          ∧ ∃ ivs, generateDateIntervals .week (getDateRange .week 40).1
              (getDateRange .week 40).2 = .ok ivs) :=
  ⟨by decide, c9_invalid_range_defensive_unreachable .week 5 3 40 (by decide)⟩

/-- C1 (amended): in the first, bucketed Analytics variant the output handed
to the chart has exactly one record per bucket produced by the Interval
Generator, in both single and group mode — its length is the interval
length — and a bucket with no matching entries is present with effort 0; in
the second variant the single-exercise output instead has one record per
raw row, so its length is the row count. -/
theorem c1_bucketed_output_per_bucket (mode : ViewMode) (s e : ℕ)
    (ivs : List Interval) (dataS : List WorkoutRow) (dataG : List JoinedRow)
    (_hok : generateDateIntervals mode s e = .ok ivs) :
    (processSingle mode ivs dataS).map (·.date) = ivs.map (·.date)
      ∧ (processGroupV1 mode ivs dataG).map (·.date) = ivs.map (·.date)
      ∧ (∀ iv ∈ ivs,
          (dataS.filter fun r => matchesInterval mode iv r.workout_date) = [] →
            (⟨iv.date, 0⟩ : SinglePoint) ∈ processSingle mode ivs dataS) := by
  refine ⟨?_, ?_, ?_⟩
  · rw [processSingle, List.map_map]
    rfl
  · simp only [processGroupV1]
    rw [List.map_map]
    rfl
  · intro iv hiv hfil
    simp only [processSingle]
    refine List.mem_map.mpr ⟨iv, hiv, ?_⟩
    rw [hfil]
    rfl

/-- Witness for C1 (amended) at the week window anchored at day 40. -/
theorem c1_bucketed_output_per_bucket_witness :
    generateDateIntervals .week 33 40 = .ok weekIvs
      ∧ (processSingle .week weekIvs rowsTwoSameDay).map (·.date)
          = weekIvs.map (·.date) :=
  ⟨rfl,
    (c1_bucketed_output_per_bucket .week 33 40 weekIvs rowsTwoSameDay []
      rfl).1⟩

/-- Counterexample to C1 as stated: in the second Analytics variant the
single-exercise output length is the row count, not the interval length —
with two rows on the same day inside the week window anchored at day 40,
the chart receives 2 records while the Interval Generator produces 8
buckets. -/
theorem c1_second_variant_counterexample :
    ∃ ivs, generateDateIntervals .week (getDateRange .week 40).1
        (getDateRange .week 40).2 = .ok ivs
      ∧ (processSingleV2 (singleQueryV2 rowsTwoSameDay "e1")).length ≠ ivs.length :=
  ⟨weekIvs, rfl, by decide⟩

/-- C2: over the buckets generated for the window, single-exercise
aggregation returns exactly one record per bucket in bucket order, each
effort being the sum of the stored efforts of the entries matching that
bucket key (zero when none), and the total of the returned efforts equals
the sum of weight_kg * reps over the raw table rows of the exercise that
fall within the window. -/
theorem c2_single_aggregation_conservation (mode : ViewMode) (s e : ℕ)
    (ivs : List Interval) (db : List WorkoutRow) (exId : String)
    (hok : generateDateIntervals mode s e = .ok ivs) :
    (processSingle mode ivs (singleQueryV1 db exId s e)).length = ivs.length
      ∧ (∀ k, (hk : k < ivs.length) →
          (hk2 : k < (processSingle mode ivs (singleQueryV1 db exId s e)).length) →
          (processSingle mode ivs (singleQueryV1 db exId s e)).get ⟨k, hk2⟩
            = ⟨(ivs.get ⟨k, hk⟩).date,
                (((singleQueryV1 db exId s e).filter fun r =>
                    matchesInterval mode (ivs.get ⟨k, hk⟩) r.workout_date).map
                  effortCol).sum⟩)
      ∧ ((processSingle mode ivs (singleQueryV1 db exId s e)).map (·.effort)).sum
          = ((db.filter fun r => r.exercise_id == exId
                && decide (s ≤ r.workout_date) && decide (r.workout_date ≤ e)).map
              fun r => r.weight_kg * (r.reps : ℤ)).sum := by
  have hse : s ≤ e := by
    by_contra hlt
    rw [generateDateIntervals_err (Nat.not_le.mp hlt)] at hok
    exact absurd hok (by simp)
  have hivs : ivs = (bucketKeys mode s e).map fun k => ⟨k, k⟩ := by
    rw [generateDateIntervals_ok hse] at hok
    injection hok with h
    exact h.symm
  have hperm : List.Perm (singleQueryV1 db exId s e)
      (db.filter fun r => r.exercise_id == exId
        && decide (s ≤ r.workout_date) && decide (r.workout_date ≤ e)) :=
    List.perm_insertionSort rowDateLE _
  refine ⟨by simp [processSingle], ?_, ?_⟩
  · intro k hk hk2
    simp only [processSingle]
    rw [List.get_map]
  · subst hivs
    have hcov : ∀ r ∈ singleQueryV1 db exId s e,
        keyOf mode r.workout_date ∈ bucketKeys mode s e := by
      intro r hr
      have hr2 := hperm.mem_iff.mp hr
      have hcond := (List.mem_filter.mp hr2).2
      simp only [Bool.and_eq_true, beq_iff_eq, decide_eq_true_eq] at hcond
      rw [mem_bucketKeys hse]
      exact ⟨keyOf_mono mode hcond.1.2, keyOf_mono mode hcond.2⟩
    have h1 : (processSingle mode ((bucketKeys mode s e).map fun k => ⟨k, k⟩)
          (singleQueryV1 db exId s e)).map (·.effort)
        = (bucketKeys mode s e).map fun k =>
            (((singleQueryV1 db exId s e).filter fun r =>
                keyOf mode r.workout_date == k).map effortCol).sum := by
      simp only [processSingle, List.map_map]
      refine List.map_congr_left fun k _ => ?_
      simp only [Function.comp_apply]
      congr 1
      refine congrArg (List.map effortCol) ?_
      exact List.filter_congr fun r _ => by rw [matchesInterval_eq]
    rw [h1, sum_over_buckets (bucketKeys mode s e)
      (fun r => keyOf mode r.workout_date) effortCol (singleQueryV1 db exId s e)
      (bucketKeys_nodup mode s e) hcov]
    exact (hperm.map effortCol).sum_eq

/-- Witness for C2 at the week window anchored at day 40 over a table with
rows of two exercises and an out-of-window row. -/
theorem c2_single_aggregation_conservation_witness :
    generateDateIntervals .week 33 40 = .ok weekIvs
      ∧ ((processSingle .week weekIvs (singleQueryV1 mixedDb "e1" 33 40)).map
            (·.effort)).sum
          = ((mixedDb.filter fun r => r.exercise_id == "e1"
                && decide (33 ≤ r.workout_date) && decide (r.workout_date ≤ 40)).map
              fun r => r.weight_kg * (r.reps : ℤ)).sum :=
  ⟨rfl, (c2_single_aggregation_conservation .week 33 40 weekIvs mixedDb "e1"
    rfl).2.2⟩

/-- C8: month granularity truncates the entry date to its year-month before
key comparison while day granularity compares the full date; an entry whose
key falls outside the generated interval matches no bucket and is silently
excluded from the aggregation — no bucket changes and no error is raised. -/
theorem c8_matching_rule_and_silent_exclusion (mode : ViewMode) (s e : ℕ)
    (ivs : List Interval) (r : WorkoutRow) (pre post : List WorkoutRow)
    (_hok : generateDateIntervals mode s e = .ok ivs)
    (hout : keyOf mode r.workout_date ∉ ivs.map (·.dateValue)) :
    (∀ iv d, matchesInterval .year iv d = (monthOf d == iv.dateValue))
      ∧ (∀ iv d, matchesInterval .week iv d = (d == iv.dateValue))
      ∧ (∀ iv d, matchesInterval .month iv d = (d == iv.dateValue))
      ∧ (∀ iv ∈ ivs, matchesInterval mode iv r.workout_date = false)
      ∧ processSingle mode ivs (pre ++ r :: post)
          = processSingle mode ivs (pre ++ post) := by
  have hfalse : ∀ iv ∈ ivs, matchesInterval mode iv r.workout_date = false := by
    intro iv hiv
    rw [matchesInterval_eq]
    refine beq_eq_false_iff_ne.mpr ?_
    intro hkey
    refine hout ?_
    rw [hkey]
    exact List.mem_map_of_mem _ hiv
  refine ⟨fun _ _ => rfl, fun _ _ => rfl, fun _ _ => rfl, hfalse, ?_⟩
  simp only [processSingle]
  refine List.map_congr_left fun iv hiv => ?_
  simp [List.filter_append, List.filter_cons, hfalse iv hiv]

/-- Witness for C8: an entry dated day 50, outside the week window anchored
at day 40, leaves every bucket of that window unchanged. -/
theorem c8_matching_rule_and_silent_exclusion_witness :
    generateDateIntervals .week 33 40 = .ok weekIvs
      ∧ keyOf .week strayRow.workout_date ∉ weekIvs.map (·.dateValue)
      ∧ processSingle .week weekIvs (rowsTwoSameDay ++ strayRow :: [])
          = processSingle .week weekIvs (rowsTwoSameDay ++ []) :=
  ⟨rfl, by decide,
    (c8_matching_rule_and_silent_exclusion .week 33 40 weekIvs strayRow
      rowsTwoSameDay [] rfl (by decide)).2.2.2.2⟩

/-- C4 (amended): in the first Analytics variant the set of series is
exactly the distinct exercise names appearing in the queried rows — an
exercise with no entries in the window contributes no series — and every
output record carries one key per distinct name plus the label, with value
0 for bucket and exercise combinations without matching entries; in the
second variant a record exists only for dates with data and carries keys
only for the exercises seen on that date. -/
theorem c4_group_series_first_variant (mode : ViewMode) (s e : ℕ)
    (ivs : List Interval) (data : List JoinedRow)
    (_hok : generateDateIntervals mode s e = .ok ivs) :
    (exerciseNamesOf data).Nodup
      ∧ (∀ n, n ∈ exerciseNamesOf data
          ↔ ((∃ r ∈ data, r.ename = some n) ∧ n ≠ ""))
      ∧ (∀ rec ∈ processGroupV1 mode ivs data,
          rec.series.map Prod.fst = exerciseNamesOf data)
      ∧ (∀ iv ∈ ivs, ∀ n ∈ exerciseNamesOf data,
          (data.filter fun r =>
            (r.ename == some n) && matchesInterval mode iv r.workout_date) = [] →
            ∃ rec ∈ processGroupV1 mode ivs data,
              rec.date = iv.date ∧ (n, (0 : ℤ)) ∈ rec.series) := by
  refine ⟨nodup_dedupFirst _, ?_, ?_, ?_⟩
  · intro n
    rw [exerciseNamesOf, mem_dedupFirst]
    simp [List.mem_filter, List.mem_filterMap, bne_iff_ne]
  · intro rec hrec
    simp only [processGroupV1, List.mem_map] at hrec
    obtain ⟨iv, _, rfl⟩ := hrec
    rw [List.map_map]
    exact List.map_id _
  · intro iv hiv n hn hfil
    simp only [processGroupV1]
    refine ⟨_, List.mem_map_of_mem _ hiv, rfl, ?_⟩
    have hz : ((((data.filter fun r =>
          matchesInterval mode iv r.workout_date).filter fun r =>
            r.ename == some n).map (·.effort)).sum) = 0 := by
      rw [List.filter_filter]
      have : (data.filter fun r =>
          (r.ename == some n) && matchesInterval mode iv r.workout_date) = [] :=
        hfil
      rw [this]
      rfl
    refine List.mem_map.mpr ⟨n, hn, ?_⟩
    exact congrArg (Prod.mk n) hz

/-- Witness for C4 (amended) at the week window anchored at day 40 over
group rows naming two exercises. -/
theorem c4_group_series_first_variant_witness :
    generateDateIntervals .week 33 40 = .ok weekIvs
      ∧ (∀ rec ∈ processGroupV1 .week weekIvs
            [⟨34, 50000, some "Squat"⟩, ⟨35, 72000, some "LegPress"⟩],
          rec.series.map Prod.fst = exerciseNamesOf
            [⟨34, 50000, some "Squat"⟩, ⟨35, 72000, some "LegPress"⟩]) :=
  ⟨rfl, (c4_group_series_first_variant .week 33 40 weekIvs
    [⟨34, 50000, some "Squat"⟩, ⟨35, 72000, some "LegPress"⟩] rfl).2.2.1⟩

/-- Counterexample to C4 as stated: in the second Analytics variant, with
two exercises on two different days, the first output record does not carry
a key for every distinct exercise name — the record of day 34 has no
LegPress key at all. -/
theorem c4_second_variant_counterexample :
    ¬ ∀ rec ∈ processGroupV2 groupRowsSample,
        ∀ n ∈ exerciseNamesOfV2 groupRowsSample,
          n ∈ rec.series.map Prod.fst := by
  decide

/-- C5 (amended): the first-variant workout-entries reads are range-filtered
to the [start, end] window, restricted to the selected exercise or to the
exercises of the selected group, and ordered ascending by date; the
second-variant reads are scope-restricted and date-ordered but carry no
date-range filter. -/
theorem c5_read_filters (db : List WorkoutRow) (exs : List ExerciseRow)
    (exId g : String) (s e : ℕ) :
    (∀ r ∈ singleQueryV1 db exId s e,
        r.exercise_id = exId ∧ s ≤ r.workout_date ∧ r.workout_date ≤ e)
      ∧ List.Sorted rowDateLE (singleQueryV1 db exId s e)
      ∧ (∀ r ∈ groupRowsV1 db exs g s e,
          (∃ x ∈ groupExercisesQuery exs g, x.id = r.exercise_id)
            ∧ s ≤ r.workout_date ∧ r.workout_date ≤ e)
      ∧ List.Sorted rowDateLE (groupRowsV1 db exs g s e)
      ∧ (∀ r ∈ singleQueryV2 db exId, r.exercise_id = exId)
      ∧ List.Sorted rowDateLE (singleQueryV2 db exId)
      ∧ (∀ r ∈ groupRowsV2 db exs g,
          ∃ x ∈ exs, x.id = r.exercise_id ∧ x.group_id = g)
      ∧ List.Sorted rowDateLE (groupRowsV2 db exs g) := by
  refine ⟨?_, List.sorted_insertionSort rowDateLE _, ?_,
    List.sorted_insertionSort rowDateLE _, ?_,
    List.sorted_insertionSort rowDateLE _, ?_,
    List.sorted_insertionSort rowDateLE _⟩
  · intro r hr
    have hr2 := List.mem_insertionSort rowDateLE |>.mp hr
    have hcond := (List.mem_filter.mp hr2).2
    simp only [Bool.and_eq_true, beq_iff_eq, decide_eq_true_eq] at hcond
    exact ⟨hcond.1.1, hcond.1.2, hcond.2⟩
  · intro r hr
    have hr2 := List.mem_insertionSort rowDateLE |>.mp hr
    have hcond := (List.mem_filter.mp hr2).2
    simp only [Bool.and_eq_true, decide_eq_true_eq, List.contains,
      List.elem_iff, List.mem_map] at hcond
    obtain ⟨⟨⟨x, hx, hxid⟩, hs⟩, he⟩ := hcond
    exact ⟨⟨x, hx, hxid⟩, hs, he⟩
  · intro r hr
    have hr2 := List.mem_insertionSort rowDateLE |>.mp hr
    have hcond := (List.mem_filter.mp hr2).2
    simpa using hcond
  · intro r hr
    have hr2 := List.mem_insertionSort rowDateLE |>.mp hr
    have hcond := (List.mem_filter.mp hr2).2
    rcases hfind : exs.find? fun x => x.id == r.exercise_id with _ | x
    · rw [hfind] at hcond
      exact absurd hcond (by simp [Option.any])
    · rw [hfind] at hcond
      have hmem := List.mem_of_find?_eq_some hfind
      have hid := List.find?_some hfind
      simp only [beq_iff_eq] at hid
      simp only [Option.any, beq_iff_eq] at hcond
      exact ⟨x, hmem, hid, hcond⟩

/-- Witness for C5 at concrete arguments: every row returned by the
first-variant single read over the mixed table is the selected exercise and
inside the window. -/
theorem c5_read_filters_witness :
    ∀ r ∈ singleQueryV1 mixedDb "e1" 33 40,
      r.exercise_id = "e1" ∧ 33 ≤ r.workout_date ∧ r.workout_date ≤ 40 :=
  (c5_read_filters mixedDb [] "e1" "g1" 33 40).1

/-- Counterexample to C5 as stated: the second-variant single read returns a
row dated day 5, far outside the week window anchored at day 40 — the read
is not range-filtered to the preset window. -/
theorem c5_second_variant_counterexample :
    ∃ r ∈ singleQueryV2 outOfWindowDb "e1",
      r.workout_date < (getDateRange .week 40).1 := by
  decide

/-- C7: when an upstream read of an analysis fails, the Aggregation Engine
is not invoked, the failure is reported as the generic fetch-error toast,
and the previously displayed chart state is returned unchanged; both model
functions consume exactly one response per read they issue, so no retry
exists.  The three conjuncts cover the single-exercise read failing, the
group-exercises read failing (regardless of the second response), and the
group entries read failing. -/
theorem c7_fetch_failure_is_atomic (mode : ViewMode) (s e : ℕ)
    (prev : ChartData) (entriesResp : Except Unit (List JoinedRow))
    (exsResp : List ExerciseRow) :
    fetchSingleRunV1 mode s e (.error ()) prev = (prev, some fetchErrorToast)
      ∧ fetchGroupRunV1 mode s e (.error ()) entriesResp prev
          = (prev, some groupExercisesErrorToast)
      ∧ fetchGroupRunV1 mode s e (.ok exsResp) (.error ()) prev
          = (prev, some fetchErrorToast) :=
  ⟨rfl, rfl, rfl⟩

/-- The selection invariant is preserved by every Select interaction. -/
theorem selection_invariant_foldl (acts : List SelAction) (st : SelState)
    (h : st.selectedExercise = "" ∨ st.selectedGroup = "") :
    ((acts.foldl applySelAction st).selectedExercise = ""
      ∨ (acts.foldl applySelAction st).selectedGroup = "") := by
  induction acts generalizing st with
  | nil => exact h
  | cons a t ih =>
      simp only [List.foldl_cons]
      refine ih _ ?_
      cases a with
      | pickExercise w => exact Or.inr rfl
      | pickGroup w => exact Or.inl rfl

/-- C10: after any sequence of Select interactions at most one analytics
scope is selected — picking an exercise clears the group and picking a
group clears the exercise — and one press of Analyze dispatches exactly one
mode, with single-exercise mode taking precedence over group mode. -/
theorem c10_single_scope_and_dispatch (acts : List SelAction) (x g v : String)
    (hx : x ≠ "") (hg : g ≠ "") :
    ((runSelActions acts).selectedExercise = ""
      ∨ (runSelActions acts).selectedGroup = "")
      ∧ (∀ st : SelState, (applySelAction st (.pickExercise v)).selectedGroup = "")
      ∧ (∀ st : SelState, (applySelAction st (.pickGroup v)).selectedExercise = "")
      ∧ handleAnalyze ⟨x, g⟩ = .single x
      ∧ handleAnalyze ⟨x, ""⟩ = .single x
      ∧ handleAnalyze ⟨"", g⟩ = .group g
      ∧ handleAnalyze ⟨"", ""⟩ = .skip := by
  refine ⟨selection_invariant_foldl acts initialSelState (Or.inl rfl),
    fun _ => rfl, fun _ => rfl, ?_, ?_, ?_, rfl⟩
  · simp [handleAnalyze, hx]
  · simp [handleAnalyze, hx]
  · simp [handleAnalyze, hg]

/-- Witness for C10 at a concrete interaction sequence and concrete
selections. -/
theorem c10_single_scope_and_dispatch_witness :
    ("a" ≠ "" ∧ "b" ≠ "")
      ∧ ((runSelActions [.pickExercise "e1", .pickGroup "g1"]).selectedExercise = ""
          ∨ (runSelActions [.pickExercise "e1", .pickGroup "g1"]).selectedGroup = "")
      ∧ handleAnalyze ⟨"a", "b"⟩ = .single "a" :=
  ⟨⟨by decide, by decide⟩,
    (c10_single_scope_and_dispatch [.pickExercise "e1", .pickGroup "g1"]
      "a" "b" "v" (by decide) (by decide)).1,
    (c10_single_scope_and_dispatch [.pickExercise "e1", .pickGroup "g1"]
      "a" "b" "v" (by decide) (by decide)).2.2.2.1⟩

end GainsTracker
